import Mathlib

/-!
Verification of the chat-to-n8n workflow compiler: a shallow embedding of
the Intent Analyzer and Graph Synthesizer, with theorems
about the structure of the synthesized graphs and the analyzer's
extraction behaviour.
-/

namespace JarvisMCP

/-- JSON-like values: the shape of parsed completion output, of step
configuration objects (`Record<string, string | number | boolean>`, a
subset of this type), and of node parameter objects. -/
inductive JVal where
  | null
  | bool (b : Bool)
  | num (n : Int)
  | str (s : String)
  | arr (elems : List JVal)
  | obj (fields : List (String × JVal))

/-- JavaScript property access `j.k` on a parsed JSON value: `some` when the
field is present on an object, `none` (undefined) otherwise. -/
def JVal.getField : JVal → String → Option JVal
  | .obj fs, k => fs.lookup k
  | _, _ => none

/-- `WorkflowStep` from the source: id, name, type and config. -/
structure WorkflowStep where
  id : String
  name : String
  type : String
  config : List (String × JVal)

/-- `WorkflowPlan` from the source. -/
structure WorkflowPlan where
  name : String
  description : String
  triggers : List String
  steps : List WorkflowStep
  expectedOutputs : List String

/-- `N8NConnection` from the source: target node, channel and input slot. -/
structure N8NConnection where
  node : String
  type : String
  index : Nat

/-- `N8NNode` from the source (the optional `typeVersion` field is never
set by the synthesizer and is omitted). -/
structure N8NNode where
  id : String
  type : String
  position : Nat × Nat
  parameters : List (String × JVal)

/-- `N8NWorkflow` from the source; `connections` is the
`Record<string, N8NConnection[]>` object, embedded as an association list
in key-insertion order. -/
structure N8NWorkflow where
  name : String
  active : Bool
  nodes : List N8NNode
  connections : List (String × List N8NConnection)

/-- Decimal digit character for a value below 10 (embeds the rendering of
a JS number inside a template literal). -/
def decDigitChar (d : Nat) : Char := Nat.digitChar d

/-- Inverse of `decDigitChar` on decimal digit characters. -/
def charToDigit (c : Char) : Nat := c.toNat - 48

/-- Little-endian decimal digit characters of `n`, computed by structural
recursion on a fuel bound so that it evaluates by kernel reduction. -/
def decCharsAux : Nat → Nat → List Char
  | _, 0 => []
  | 0, _ + 1 => []
  | fuel + 1, n + 1 => decDigitChar ((n + 1) % 10) :: decCharsAux fuel ((n + 1) / 10)

/-- The decimal digit characters of `n`, most significant first. -/
def decChars (n : Nat) : List Char := (decCharsAux n n).reverse

/-- Decimal rendering of a natural number, embedding the JS
number-to-string conversion performed by a template literal. -/
def natToDec (n : Nat) : String :=
  if n = 0 then "0" else String.mk (decChars n)

/-- The id assigned to the step node at position `index`:
`` `node_${index}` `` in the source. -/
def nodeId (index : Nat) : String := "node_" ++ natToDec index

/-- The `triggerMap` table of `getTriggerNodeType`. -/
def triggerMap : List (String × String) :=
  [("email", "n8n-nodes-base.emailTrigger"),
   ("schedule", "n8n-nodes-base.scheduleTrigger"),
   ("webhook", "n8n-nodes-base.webhookTrigger"),
   ("slack", "n8n-nodes-slack.slackTrigger"),
   ("github", "n8n-nodes-github.githubTrigger"),
   ("manual", "n8n-nodes-base.manualTrigger")]

/-- `getTriggerNodeType` from the source: table lookup with the webhook
trigger as default. -/
def getTriggerNodeType (trigger : String) : String :=
  (triggerMap.lookup trigger).getD "n8n-nodes-base.webhookTrigger"

/-- The `typeMap` table of `getN8NNodeType`. -/
def typeMap : List (String × String) :=
  [("http", "n8n-nodes-base.httpRequest"),
   ("ai", "n8n-nodes-openai.chatGPT"),
   ("database", "n8n-nodes-postgres.postgres"),
   ("email", "n8n-nodes-base.emailSend"),
   ("slack", "n8n-nodes-slack.slack"),
   ("conditional", "n8n-nodes-base.if"),
   ("code", "n8n-nodes-base.code")]

/-- `getN8NNodeType` from the source: table lookup with the HTTP-request
node as default. -/
def getN8NNodeType (stepType : String) : String :=
  (typeMap.lookup stepType).getD "n8n-nodes-base.httpRequest"

/-- `buildTriggerConfig` from the source: default parameters per trigger
kind. -/
def buildTriggerConfig (trigger : String) : List (String × JVal) :=
  match trigger with
  | "schedule" => [("interval", .arr [.num 1]), ("unit", .str "hours")]
  | "webhook" => [("path", .str "workflow-trigger"), ("responseMode", .str "onReceived")]
  | _ => []

/-- JS `toLowerCase()` on the ASCII trigger-kind strings: per-character
lowering (structurally recursive, so it evaluates by kernel reduction). -/
def lowerString (s : String) : String := String.mk (s.data.map Char.toLower)

/-- A `{ node: target, type: "main", index: 0 }` connection record. -/
def mainConn (target : String) : N8NConnection :=
  { node := target, type := "main", index := 0 }

/-- The connection entry written by loop iteration `index` of
`generateN8NWorkflow`: iteration 0 writes `connections["trigger"]` when a
trigger exists (and nothing otherwise); iteration `index > 0` writes
`connections["node_${index-1}"]`. -/
def stepConnEntry (hasTrigger : Bool) (index : Nat) :
    Option (String × List N8NConnection) :=
  if index = 0 then
    if hasTrigger then some ("trigger", [mainConn (nodeId 0)]) else none
  else
    some (nodeId (index - 1), [mainConn (nodeId index)])

/-- `generateN8NWorkflow` from the source. The trigger node (if any) is
built from the lower-cased first trigger; each step becomes a node
`node_${index}`; consecutive nodes are connected on channel "main". The
`yOffset` counter starts at 0, advances by 150 after the trigger node and
after every step node. -/
def generateN8NWorkflow (plan : WorkflowPlan) : N8NWorkflow :=
  let triggerNodes : List N8NNode :=
    match plan.triggers with
    | [] => []
    | t :: _ =>
      [{ id := "trigger",
         type := getTriggerNodeType (lowerString t),
         position := (0, 0),
         parameters := buildTriggerConfig (lowerString t) }]
  let stepNodes : List N8NNode :=
    plan.steps.enum.map fun p =>
      { id := nodeId p.1,
        type := getN8NNodeType p.2.type,
        position := (400, 150 * triggerNodes.length + 150 * p.1),
        parameters := p.2.config }
  let connections : List (String × List N8NConnection) :=
    (List.range plan.steps.length).filterMap
      (stepConnEntry (!plan.triggers.isEmpty))
  { name := plan.name,
    active := false,
    nodes := triggerNodes ++ stepNodes,
    connections := connections }

/-- `createPlanningTasks` task metadata: either the whole plan (review
task) or a step id (step task). -/
inductive TaskMetadata where
  | workflowPlan (plan : WorkflowPlan)
  | stepId (id : String)

/-- A planning-task record as inserted by `createPlanningTasks`. -/
structure PlanningTask where
  title : String
  description : String
  category : String
  status : String
  priority : Nat
  metadata : TaskMetadata

/-- The top-level review task of `createPlanningTasks`. -/
def reviewTask (plan : WorkflowPlan) : PlanningTask :=
  { title := "Review workflow: " ++ plan.name,
    description := plan.description,
    category := "workflow",
    status := "in_progress",
    priority := 7,
    metadata := .workflowPlan plan }

/-- The per-step task of `createPlanningTasks`. -/
def stepTask (step : WorkflowStep) : PlanningTask :=
  { title := "Configure: " ++ step.name,
    description := "Set up " ++ step.type ++ " node for workflow",
    category := "workflow",
    status := "backlog",
    priority := 5,
    metadata := .stepId step.id }

/-- The `tasks` array built by `createPlanningTasks`: the review task
followed by one task per step, in step order (the surrounding storage
inserts are external collaborators). -/
def createPlanningTasks (plan : WorkflowPlan) : List PlanningTask :=
  reviewTask plan :: plan.steps.map stepTask

/-- One typed content block of a completion response: a text block
carrying its text, or a block of any other type tag. -/
inductive ContentBlock where
  | text (s : String)
  | other (blockType : String)

/-- The analyzer's read of the completion content
(`response.content[0].type === "text" ? response.content[0].text : ""`):
it inspects only the first block; `none` models the TypeError thrown when
`content` is empty (`content[0]` is undefined). -/
def extractAnalysisText : List ContentBlock → Option String
  | [] => none
  | .text s :: _ => some s
  | .other _ :: _ => some ""

/-- The first text block anywhere in the content, as the spec describes
the read ("the compiler reads only the first text block"); stated from
the spec's words for comparison with `extractAnalysisText`. -/
def specFirstTextBlock : List ContentBlock → Option String
  | [] => none
  | .text s :: _ => some s
  | .other _ :: rest => specFirstTextBlock rest

/-- The error taxonomy the spec assigns to the Intent Analyzer. -/
inductive AnalyzerError where
  | planExtraction
  | planParse
  | planShape

/-- The analyzer's return value: the four property accesses
`analysis.intent`, `analysis.requiredServices`, `analysis.complexity`,
`analysis.plan` (each `none` when the property is undefined). -/
structure Analysis where
  intent : Option JVal
  requiredServices : Option JVal
  complexity : Option JVal
  plan : Option JVal

/-- Index of the first character satisfying `p`, if any. -/
def findFirstIdx (p : Char → Bool) : List Char → Option Nat
  | [] => none
  | c :: cs => if p c then some 0 else (findFirstIdx p cs).map (· + 1)

/-- Index of the last character satisfying `p`, if any. -/
def findLastIdx (p : Char → Bool) : List Char → Option Nat
  | [] => none
  | c :: cs =>
    match findLastIdx p cs with
    | some k => some (k + 1)
    | none => if p c then some 0 else none

/-- The greedy regex match `analysisText.match(/\x7b[\s\S]*\x7d/)`: the
match, when it exists, runs from the first opening brace to the last
closing brace of the text (the closing brace strictly after the opening
one); `none` when no such span exists. -/
def jsonMatch (cs : List Char) : Option (List Char) :=
  match findFirstIdx (fun c => c = '{') cs, findLastIdx (fun c => c = '}') cs with
  | some i, some j => if i < j then some ((cs.drop i).take (j - i + 1)) else none
  | _, _ => none

/-- Lines 113-118 of the analyzer: after `JSON.parse` succeeds the four
properties are returned verbatim, with no validation of presence or of
the `complexity` value. -/
def mkAnalysis (j : JVal) : Analysis :=
  { intent := j.getField "intent",
    requiredServices := j.getField "requiredServices",
    complexity := j.getField "complexity",
    plan := j.getField "plan" }

/-- The pure tail of `analyzeWorkflowRequest`, from the completion's text
onward, parameterized by the external `JSON.parse` collaborator
(`parseJson cs = none` models a parse throw): regex extraction, then
parse, then the verbatim field return. -/
def analyzeCompletionText (parseJson : List Char → Option JVal)
    (text : String) : Except AnalyzerError Analysis :=
  match jsonMatch text.data with
  | none => .error .planExtraction
  | some cs =>
    match parseJson cs with
    | none => .error .planParse
    | some j => .ok (mkAnalysis j)

/-- The node ids a synthesized graph should carry, in order: the trigger
node (when a trigger exists) followed by one step node per step. -/
def pathIdsOf (plan : WorkflowPlan) : List String :=
  (match plan.triggers with
   | [] => []
   | _ :: _ => ["trigger"])
  ++ (List.range plan.steps.length).map nodeId

/-- The connection map of a single path through `ids` in order: each id
except the last points to its successor on channel "main". -/
def chainOf (ids : List String) : List (String × List N8NConnection) :=
  (ids.zip ids.tail).map fun p => (p.1, [mainConn p.2])

/-- Total number of edges in a workflow: the sum over all connection-map
entries of the number of targets recorded there. -/
def edgeCount (w : N8NWorkflow) : Nat :=
  (w.connections.map fun e => e.2.length).sum

/-- Decoding of a decimal character string back to a number. -/
def decDecode (cs : List Char) : Nat :=
  Nat.ofDigits 10 (cs.reverse.map charToDigit)

/-- Concrete step: an http fetch with one config entry. -/
def egStepHttp : WorkflowStep :=
  { id := "s1", name := "Fetch", type := "http", config := [("url", JVal.str "https://x")] }

/-- Concrete step: a slack notification with one config entry. -/
def egStepSlack : WorkflowStep :=
  { id := "s2", name := "Notify", type := "slack", config := [("channel", JVal.str "#ops")] }

/-- Concrete plan with a schedule trigger and two steps (the worked
example of the specification). -/
def egPlanSchedule : WorkflowPlan :=
  { name := "Daily", description := "daily summary", triggers := ["Schedule"],
    steps := [egStepHttp, egStepSlack], expectedOutputs := ["summary"] }

/-- Concrete plan with no trigger and two steps. -/
def egPlanNoTrigger : WorkflowPlan :=
  { name := "NT", description := "no trigger", triggers := [],
    steps := [egStepHttp, egStepSlack], expectedOutputs := [] }

/-- Concrete plan with a manual trigger and no steps. -/
def egPlanManualEmpty : WorkflowPlan :=
  { name := "M", description := "manual only", triggers := ["manual"],
    steps := [], expectedOutputs := [] }

/-- Concrete plan with no trigger and no steps. -/
def egPlanEmpty : WorkflowPlan :=
  { name := "E", description := "empty", triggers := [],
    steps := [], expectedOutputs := [] }

/-- Concrete plan whose trigger kind and step type are outside the lookup
tables. -/
def egPlanUnknown : WorkflowPlan :=
  { name := "U", description := "unknown kinds", triggers := ["Zap"],
    steps := [{ id := "s1", name := "X", type := "foobar", config := [] }],
    expectedOutputs := [] }

/-- A parsed completion object carrying all four fields but a complexity
value outside the allowed set. -/
def jvMedium : JVal :=
  JVal.obj [("intent", JVal.str "x"), ("requiredServices", JVal.arr []),
    ("complexity", JVal.str "medium"), ("plan", JVal.obj [])]

theorem charToDigit_decDigitChar : ∀ d : Nat, d < 10 → charToDigit (decDigitChar d) = d := by
  decide

theorem decCharsAux_eq : ∀ (fuel n : Nat), n ≤ fuel →
    decCharsAux fuel n = (Nat.digits 10 n).map decDigitChar := by
  intro fuel
  induction fuel with
  | zero =>
    intro n hn
    interval_cases n
    simp [decCharsAux]
  | succ fuel ih =>
    intro n hn
    cases n with
    | zero => simp [decCharsAux]
    | succ n =>
      show decDigitChar ((n + 1) % 10) :: decCharsAux fuel ((n + 1) / 10) = _
      rw [Nat.digits_def' (b := 10) (by norm_num) (Nat.succ_pos n)]
      rw [List.map_cons]
      congr 1
      apply ih
      have hlt : (n + 1) / 10 < n + 1 := Nat.div_lt_self (Nat.succ_pos n) (by norm_num)
      exact Nat.le_of_lt_succ (Nat.lt_of_lt_of_le hlt hn)

theorem decChars_eq (n : Nat) :
    decChars n = ((Nat.digits 10 n).map decDigitChar).reverse := by
  unfold decChars
  rw [decCharsAux_eq n n (Nat.le_refl n)]

theorem decDecode_natToDec (n : Nat) : decDecode (natToDec n).data = n := by
  unfold natToDec
  by_cases h0 : n = 0
  · subst h0
    simp
    decide
  · rw [if_neg h0]
    show decDecode (decChars n) = n
    unfold decDecode
    rw [decChars_eq]
    rw [List.reverse_reverse, List.map_map]
    have hmap : (Nat.digits 10 n).map (charToDigit ∘ decDigitChar)
        = (Nat.digits 10 n).map id := by
      apply List.map_congr_left
      intro d hd
      exact charToDigit_decDigitChar d (Nat.digits_lt_base (by norm_num) hd)
    rw [hmap, List.map_id, Nat.ofDigits_digits]

theorem natToDec_injective : Function.Injective natToDec := by
  intro a b h
  have h2 := congrArg (fun s => decDecode s.data) h
  simp only [decDecode_natToDec] at h2
  exact h2

theorem nodeId_injective : Function.Injective nodeId := by
  intro a b h
  apply natToDec_injective
  have hd := congrArg String.data h
  simp only [nodeId, String.data_append] at hd
  exact String.ext (List.append_cancel_left hd)

theorem nodeId_ne_trigger (i : Nat) : nodeId i ≠ "trigger" := by
  intro h
  have hd := congrArg String.data h
  simp only [nodeId, String.data_append] at hd
  have hne : ('n' : Char) = 't' := by
    have hh := congrArg List.head? hd
    simp only [List.head?_append, List.head?_cons] at hh
    simp at hh
  simp at hne

theorem findFirstIdx_eq_none (p : Char → Bool) (cs : List Char)
    (h : ∀ c ∈ cs, ¬ p c) : findFirstIdx p cs = none := by
  induction cs with
  | nil => rfl
  | cons c cs ih =>
    have hc : ¬ p c := h c (List.mem_cons_self c cs)
    simp only [findFirstIdx, if_neg hc]
    rw [ih fun x hx => h x (List.mem_cons_of_mem c hx)]
    rfl

theorem findFirstIdx_some_spec (p : Char → Bool) :
    ∀ (cs : List Char) (i : Nat), findFirstIdx p cs = some i →
      ∃ c, cs[i]? = some c ∧ p c := by
  intro cs
  induction cs with
  | nil => intro i h; simp [findFirstIdx] at h
  | cons c cs ih =>
    intro i h
    simp only [findFirstIdx] at h
    by_cases hc : p c
    · rw [if_pos hc] at h
      cases h
      exact ⟨c, by simp, hc⟩
    · rw [if_neg hc] at h
      match hfi : findFirstIdx p cs with
      | none => rw [hfi] at h; simp at h
      | some i' =>
        rw [hfi] at h
        simp at h
        obtain ⟨d, hd, hpd⟩ := ih i' hfi
        exact ⟨d, by rw [← h]; simpa using hd, hpd⟩

theorem findFirstIdx_complete (p : Char → Bool) :
    ∀ (cs : List Char) (i : Nat) (c : Char), cs[i]? = some c → p c →
      (∀ k, k < i → ∀ c', cs[k]? = some c' → ¬ p c') →
      findFirstIdx p cs = some i := by
  intro cs
  induction cs with
  | nil => intro i c h; simp at h
  | cons d ds ih =>
    intro i c hget hp hmin
    cases i with
    | zero =>
      simp at hget
      subst hget
      simp [findFirstIdx, hp]
    | succ i =>
      have hd : ¬ p d := hmin 0 (Nat.succ_pos i) d (by simp)
      simp only [findFirstIdx, if_neg hd]
      rw [ih i c (by simpa using hget) hp
        (fun k hk c' hget' => hmin (k + 1) (Nat.succ_lt_succ hk) c' (by simpa using hget'))]
      rfl

theorem findLastIdx_eq_none (p : Char → Bool) (cs : List Char)
    (h : ∀ c ∈ cs, ¬ p c) : findLastIdx p cs = none := by
  induction cs with
  | nil => rfl
  | cons c cs ih =>
    have hc : ¬ p c := h c (List.mem_cons_self c cs)
    simp only [findLastIdx]
    rw [ih fun x hx => h x (List.mem_cons_of_mem c hx)]
    simp [hc]

theorem findLastIdx_some_spec (p : Char → Bool) :
    ∀ (cs : List Char) (j : Nat), findLastIdx p cs = some j →
      ∃ c, cs[j]? = some c ∧ p c := by
  intro cs
  induction cs with
  | nil => intro j h; simp [findLastIdx] at h
  | cons c cs ih =>
    intro j h
    simp only [findLastIdx] at h
    match hfl : findLastIdx p cs with
    | some k =>
      rw [hfl] at h
      simp at h
      obtain ⟨d, hd, hpd⟩ := ih k hfl
      exact ⟨d, by rw [← h]; simpa using hd, hpd⟩
    | none =>
      rw [hfl] at h
      by_cases hc : p c
      · rw [if_pos hc] at h
        cases h
        exact ⟨c, by simp, hc⟩
      · rw [if_neg hc] at h
        cases h

theorem findLastIdx_complete (p : Char → Bool) :
    ∀ (cs : List Char) (j : Nat) (c : Char), cs[j]? = some c → p c →
      (∀ k, j < k → ∀ c', cs[k]? = some c' → ¬ p c') →
      findLastIdx p cs = some j := by
  intro cs
  induction cs with
  | nil => intro j c h; simp at h
  | cons d ds ih =>
    intro j c hget hp hmax
    cases j with
    | zero =>
      simp at hget
      subst hget
      have hnone : findLastIdx p ds = none := by
        apply findLastIdx_eq_none
        intro x hx
        obtain ⟨k, hk⟩ := List.getElem?_of_mem hx
        exact hmax (k + 1) (Nat.succ_pos k) x (by simpa using hk)
      simp [findLastIdx, hnone, hp]
    | succ j =>
      have hrec : findLastIdx p ds = some j :=
        ih j c (by simpa using hget) hp
          (fun k hk c' hget' => hmax (k + 1) (Nat.succ_lt_succ hk) c' (by simpa using hget'))
      simp [findLastIdx, hrec]

theorem chainOf_cons_cons (a b : String) (l : List String) :
    chainOf (a :: b :: l) = (a, [mainConn b]) :: chainOf (b :: l) := rfl

theorem chain_range'_map : ∀ (m s : Nat),
    chainOf ((List.range' s (m + 1)).map nodeId)
      = (List.range' (s + 1) m).map (fun i => (nodeId (i - 1), [mainConn (nodeId i)])) := by
  intro m
  induction m with
  | zero => intro s; rfl
  | succ m ih =>
    intro s
    have h := ih (s + 1)
    rw [List.range'_succ, List.map_cons] at h
    rw [show List.range' s (m + 1 + 1) = s :: List.range' (s + 1) (m + 1) from List.range'_succ ..]
    rw [show List.range' (s + 1) (m + 1) = (s + 1) :: List.range' (s + 1 + 1) m from
      List.range'_succ ..]
    simp only [List.map_cons]
    rw [chainOf_cons_cons, h]
    simp

theorem filterMap_stepConnEntry (ht : Bool) : ∀ (m s : Nat), 1 ≤ s →
    (List.range' s m).filterMap (stepConnEntry ht)
      = (List.range' s m).map (fun i => (nodeId (i - 1), [mainConn (nodeId i)])) := by
  intro m
  induction m with
  | zero => intro s _; rfl
  | succ m ih =>
    intro s hs
    rw [List.range'_succ]
    have hne : s ≠ 0 := Nat.one_le_iff_ne_zero.mp hs
    rw [List.filterMap_cons_some
      (show stepConnEntry ht s = some (nodeId (s - 1), [mainConn (nodeId s)]) by
        simp [stepConnEntry, hne])]
    rw [List.map_cons, ih (s + 1) (Nat.le_succ_of_le hs)]

theorem filterMap_stepConnEntry_false (m : Nat) :
    (List.range' 0 (m + 1)).filterMap (stepConnEntry false)
      = (List.range' 1 m).map (fun i => (nodeId (i - 1), [mainConn (nodeId i)])) := by
  rw [List.range'_succ]
  rw [List.filterMap_cons_none (show stepConnEntry false 0 = none from rfl)]
  have h := filterMap_stepConnEntry false m 1 (Nat.le_refl 1)
  simpa using h

theorem filterMap_stepConnEntry_true (m : Nat) :
    (List.range' 0 (m + 1)).filterMap (stepConnEntry true)
      = ("trigger", [mainConn (nodeId 0)])
        :: (List.range' 1 m).map (fun i => (nodeId (i - 1), [mainConn (nodeId i)])) := by
  rw [List.range'_succ]
  rw [List.filterMap_cons_some
    (show stepConnEntry true 0 = some ("trigger", [mainConn (nodeId 0)]) from rfl)]
  have h := filterMap_stepConnEntry true m 1 (Nat.le_refl 1)
  simp only [Nat.zero_add] at h ⊢
  rw [h]

theorem chain_range0 (m : Nat) :
    chainOf ((List.range' 0 (m + 1)).map nodeId)
      = (List.range' 1 m).map (fun i => (nodeId (i - 1), [mainConn (nodeId i)])) := by
  have h := chain_range'_map m 0
  simpa using h

theorem chain_trigger_cons (m : Nat) :
    chainOf ("trigger" :: (List.range' 0 (m + 1)).map nodeId)
      = ("trigger", [mainConn (nodeId 0)])
        :: (List.range' 1 m).map (fun i => (nodeId (i - 1), [mainConn (nodeId i)])) := by
  have h := chain_range0 m
  rw [show List.range' 0 (m + 1) = 0 :: List.range' 1 m from List.range'_succ ..] at h ⊢
  simp only [List.map_cons] at h ⊢
  rw [chainOf_cons_cons, h]

theorem map_id_stepNodes (steps : List WorkflowStep) (g : Nat × WorkflowStep → N8NNode)
    (hg : ∀ p, (g p).id = nodeId p.1) :
    (steps.enum.map g).map N8NNode.id = (List.range steps.length).map nodeId := by
  rw [List.map_map]
  have hcomp : N8NNode.id ∘ g = nodeId ∘ Prod.fst := funext fun p => hg p
  rw [hcomp, ← List.map_map, List.enum_map_fst]

theorem gen_nodes_map_id (plan : WorkflowPlan) :
    (generateN8NWorkflow plan).nodes.map N8NNode.id = pathIdsOf plan := by
  unfold generateN8NWorkflow pathIdsOf
  cases plan.triggers with
  | nil =>
    simp only [List.nil_append]
    exact map_id_stepNodes _ _ fun p => rfl
  | cons t ts =>
    simp only [List.map_append, List.cons_append, List.nil_append,
      List.map_cons, List.map_nil]
    congr 1
    exact map_id_stepNodes _ _ fun p => rfl

theorem gen_connections_chain (plan : WorkflowPlan) :
    (generateN8NWorkflow plan).connections = chainOf (pathIdsOf plan) := by
  unfold generateN8NWorkflow pathIdsOf
  cases htr : plan.triggers with
  | nil =>
    simp only [List.isEmpty_nil, Bool.not_true, List.nil_append]
    cases hn : plan.steps.length with
    | zero => rfl
    | succ m =>
      rw [List.range_eq_range', filterMap_stepConnEntry_false m, chain_range0 m]
  | cons t ts =>
    simp only [List.isEmpty_cons, Bool.not_false, List.cons_append, List.nil_append]
    cases hn : plan.steps.length with
    | zero => rfl
    | succ m =>
      rw [List.range_eq_range', filterMap_stepConnEntry_true m, chain_trigger_cons m]

theorem sum_map_one {α : Type} (l : List α) : (l.map fun _ => (1 : Nat)).sum = l.length := by
  induction l with
  | nil => rfl
  | cons x l ih => simp [ih, Nat.add_comm]

theorem edgeCount_chain (ids : List String) :
    ((chainOf ids).map fun e => e.2.length).sum = ids.length - 1 := by
  unfold chainOf
  rw [List.map_map]
  rw [show ((fun e : String × List N8NConnection => e.2.length) ∘
    fun p : String × String => (p.1, [mainConn p.2])) = fun _ => (1 : Nat) from rfl]
  rw [sum_map_one, List.length_zip, List.length_tail]
  exact Nat.min_eq_right (Nat.sub_le _ _)

theorem pathIds_length_nil (plan : WorkflowPlan) (h : plan.triggers = []) :
    (pathIdsOf plan).length = plan.steps.length := by
  unfold pathIdsOf
  rw [h]
  simp

theorem pathIds_length_cons (plan : WorkflowPlan) (t : String) (ts : List String)
    (h : plan.triggers = t :: ts) :
    (pathIdsOf plan).length = plan.steps.length + 1 := by
  unfold pathIdsOf
  rw [h]
  simp [Nat.add_comm]

theorem lookup_eq_none_of_not_mem_keys :
    ∀ (l : List (String × String)) (a : String),
      a ∉ l.map Prod.fst → l.lookup a = none := by
  intro l
  induction l with
  | nil => intro a _; rfl
  | cons kv l ih =>
    intro a ha
    obtain ⟨k, v⟩ := kv
    simp only [List.map_cons, List.mem_cons, not_or] at ha
    have hbeq : (a == k) = false := beq_eq_false_iff_ne.mpr ha.1
    simp [List.lookup, hbeq, ih a ha.2]

theorem map_type_stepNodes (steps : List WorkflowStep) (g : Nat × WorkflowStep → N8NNode)
    (hg : ∀ p, (g p).type = getN8NNodeType p.2.type) :
    (steps.enum.map g).map N8NNode.type
      = steps.map (fun st => getN8NNodeType st.type) := by
  rw [List.map_map]
  have hcomp : N8NNode.type ∘ g = (fun st => getN8NNodeType st.type) ∘ Prod.snd :=
    funext fun p => hg p
  rw [hcomp, ← List.map_map, List.enum_map_snd]

/-- C7: every graph returned by the synthesizer has `active = false` — no
synthesized workflow is ever produced in an activated state. -/
theorem c7_synthesized_graph_inactive (plan : WorkflowPlan) :
    (generateN8NWorkflow plan).active = false := rfl

/-- C4: the synthesizer is a total function on well-formed plans (it is
defined as a Lean function, so it never throws); with empty steps and a
non-empty trigger list the graph holds exactly the trigger node and no
connections, and with both empty it holds no nodes and no connections. -/
theorem c4_synthesizer_total_on_empty (plan : WorkflowPlan) :
    (∀ t ts, plan.steps = [] → plan.triggers = t :: ts →
      (generateN8NWorkflow plan).nodes
        = [{ id := "trigger", type := getTriggerNodeType (lowerString t),
             position := (0, 0), parameters := buildTriggerConfig (lowerString t) }]
      ∧ (generateN8NWorkflow plan).connections = [])
    ∧ (plan.steps = [] → plan.triggers = [] →
      (generateN8NWorkflow plan).nodes = []
      ∧ (generateN8NWorkflow plan).connections = []) := by
  constructor
  · intro t ts hs ht
    unfold generateN8NWorkflow
    rw [hs, ht]
    exact ⟨rfl, rfl⟩
  · intro hs ht
    unfold generateN8NWorkflow
    rw [hs, ht]
    exact ⟨rfl, rfl⟩

theorem c4_witness :
    (generateN8NWorkflow egPlanManualEmpty).nodes
      = [{ id := "trigger", type := getTriggerNodeType (lowerString "manual"),
           position := (0, 0), parameters := buildTriggerConfig (lowerString "manual") }]
    ∧ (generateN8NWorkflow egPlanManualEmpty).connections = []
    ∧ (generateN8NWorkflow egPlanEmpty).nodes = []
    ∧ (generateN8NWorkflow egPlanEmpty).connections = [] := by
  have h1 := (c4_synthesizer_total_on_empty egPlanManualEmpty).1 "manual" [] rfl rfl
  have h2 := (c4_synthesizer_total_on_empty egPlanEmpty).2 rfl rfl
  exact ⟨h1.1, h1.2, h2.1, h2.2⟩

/-- C5: a step type outside the `typeMap` table maps to the generic
HTTP-request node; a (lower-cased) trigger kind outside the `triggerMap`
table maps to the generic webhook trigger; the node types of every
synthesized graph are exactly the table images of the trigger kind and
the step types, so synthesis never fails on unknown kinds. -/
theorem c5_unknown_kinds_get_defaults (plan : WorkflowPlan) :
    (∀ s : String, s ∉ typeMap.map Prod.fst →
      getN8NNodeType s = "n8n-nodes-base.httpRequest")
    ∧ (∀ r : String, r ∉ triggerMap.map Prod.fst →
      getTriggerNodeType r = "n8n-nodes-base.webhookTrigger")
    ∧ (generateN8NWorkflow plan).nodes.map N8NNode.type
      = (match plan.triggers with
         | [] => []
         | t :: _ => [getTriggerNodeType (lowerString t)])
        ++ plan.steps.map (fun st => getN8NNodeType st.type) := by
  refine ⟨?_, ?_, ?_⟩
  · intro s hs
    unfold getN8NNodeType
    rw [lookup_eq_none_of_not_mem_keys _ _ hs]
    rfl
  · intro r hr
    unfold getTriggerNodeType
    rw [lookup_eq_none_of_not_mem_keys _ _ hr]
    rfl
  · unfold generateN8NWorkflow
    cases plan.triggers with
    | nil =>
      simp only [List.nil_append]
      exact map_type_stepNodes _ _ fun p => rfl
    | cons t ts =>
      simp only [List.cons_append, List.nil_append, List.map_cons]
      congr 1
      exact map_type_stepNodes _ _ fun p => rfl

theorem c5_witness :
    getN8NNodeType "foobar" = "n8n-nodes-base.httpRequest"
    ∧ getTriggerNodeType (lowerString "Zap") = "n8n-nodes-base.webhookTrigger" := by
  have h := c5_unknown_kinds_get_defaults egPlanUnknown
  exact ⟨h.1 "foobar" (by decide), h.2.1 (lowerString "Zap") (by decide)⟩

/-- C6: with non-empty triggers the synthesized graph's first node is the
single trigger node: id "trigger", type looked up from the lower-cased
first trigger kind, parameters from `buildTriggerConfig` — which gives a
1-hour interval for "schedule", a default path with synchronous
(onReceived) response mode for "webhook", and empty parameters for every
other kind. -/
theorem c6_trigger_node_shape (plan : WorkflowPlan) (t : String) (ts : List String)
    (htr : plan.triggers = t :: ts) :
    (generateN8NWorkflow plan).nodes.head?
      = some { id := "trigger", type := getTriggerNodeType (lowerString t),
               position := (0, 0), parameters := buildTriggerConfig (lowerString t) }
    ∧ ((generateN8NWorkflow plan).nodes.filter (fun nd => nd.id == "trigger")).length = 1
    ∧ buildTriggerConfig "schedule"
        = [("interval", JVal.arr [JVal.num 1]), ("unit", JVal.str "hours")]
    ∧ buildTriggerConfig "webhook"
        = [("path", JVal.str "workflow-trigger"), ("responseMode", JVal.str "onReceived")]
    ∧ (∀ r : String, r ≠ "schedule" → r ≠ "webhook" → buildTriggerConfig r = []) := by
  refine ⟨?_, ?_, rfl, rfl, ?_⟩
  · unfold generateN8NWorkflow
    rw [htr]
    rfl
  · unfold generateN8NWorkflow
    rw [htr]
    dsimp only
    rw [List.singleton_append, List.filter_cons_of_pos (by rfl)]
    rw [List.filter_eq_nil_iff.mpr ?step]
    case step =>
      intro nd hnd
      obtain ⟨p, _, rfl⟩ := List.mem_map.mp hnd
      simpa using nodeId_ne_trigger p.1
    rfl
  · intro r h1 h2
    unfold buildTriggerConfig
    split
    · exact absurd rfl h1
    · exact absurd rfl h2
    · rfl

theorem c6_witness :
    (generateN8NWorkflow egPlanSchedule).nodes.head?
      = some { id := "trigger", type := getTriggerNodeType (lowerString "Schedule"),
               position := (0, 0), parameters := buildTriggerConfig (lowerString "Schedule") }
    ∧ ((generateN8NWorkflow egPlanSchedule).nodes.filter
        (fun nd => nd.id == "trigger")).length = 1
    ∧ buildTriggerConfig "manual" = [] := by
  have h := c6_trigger_node_shape egPlanSchedule "Schedule" [] rfl
  exact ⟨h.1, h.2.1, h.2.2.2.2 "manual" (by decide) (by decide)⟩

/-- C8: the derived review checklist holds exactly N + 1 tasks for an
N-step plan: the top-level review task first, then one task per step in
step order, each step task carrying the step's name in its title and the
step's id in its metadata. -/
theorem c8_checklist_shape (plan : WorkflowPlan) :
    (createPlanningTasks plan).length = plan.steps.length + 1
    ∧ (createPlanningTasks plan).head? = some (reviewTask plan)
    ∧ (∀ i : Nat, (createPlanningTasks plan)[i + 1]? = (plan.steps[i]?).map stepTask)
    ∧ (∀ step : WorkflowStep,
        (stepTask step).title = "Configure: " ++ step.name
        ∧ (stepTask step).metadata = TaskMetadata.stepId step.id) := by
  refine ⟨?_, rfl, ?_, fun step => ⟨rfl, rfl⟩⟩
  · simp [createPlanningTasks]
  · intro i
    simp [createPlanningTasks]

/-- C1: the synthesized graph is a single linear path: the node ids are
the trigger (when present) followed by the step nodes in step order, the
connection map is exactly the consecutive-successor chain over that id
sequence, and consequently a plan with N steps yields N + 1 nodes and N
edges with a trigger, or N nodes and N - 1 edges (0 when N = 0) without
one. -/
theorem c1_linear_graph (plan : WorkflowPlan) :
    ((generateN8NWorkflow plan).nodes.map N8NNode.id = pathIdsOf plan)
    ∧ ((generateN8NWorkflow plan).connections = chainOf (pathIdsOf plan))
    ∧ (∀ t ts, plan.triggers = t :: ts →
        (generateN8NWorkflow plan).nodes.length = plan.steps.length + 1
        ∧ edgeCount (generateN8NWorkflow plan) = plan.steps.length)
    ∧ (plan.triggers = [] →
        (generateN8NWorkflow plan).nodes.length = plan.steps.length
        ∧ edgeCount (generateN8NWorkflow plan) = plan.steps.length - 1) := by
  have hnodes := gen_nodes_map_id plan
  have hconn := gen_connections_chain plan
  have hlen : (generateN8NWorkflow plan).nodes.length = (pathIdsOf plan).length := by
    have := congrArg List.length hnodes
    rwa [List.length_map] at this
  refine ⟨hnodes, hconn, ?_, ?_⟩
  · intro t ts htr
    constructor
    · rw [hlen, pathIds_length_cons plan t ts htr]
    · unfold edgeCount
      rw [hconn, edgeCount_chain, pathIds_length_cons plan t ts htr]
      simp
  · intro htr
    constructor
    · rw [hlen, pathIds_length_nil plan htr]
    · unfold edgeCount
      rw [hconn, edgeCount_chain, pathIds_length_nil plan htr]

theorem c1_witness :
    (generateN8NWorkflow egPlanSchedule).nodes.length = 3
    ∧ edgeCount (generateN8NWorkflow egPlanSchedule) = 2
    ∧ (generateN8NWorkflow egPlanNoTrigger).nodes.length = 2
    ∧ edgeCount (generateN8NWorkflow egPlanNoTrigger) = 1 := by
  have h1 := (c1_linear_graph egPlanSchedule).2.2.1 "Schedule" [] rfl
  have h2 := (c1_linear_graph egPlanNoTrigger).2.2.2 rfl
  exact ⟨h1.1, h1.2, h2.1, h2.2⟩

/-- C10: node ids are pairwise distinct — the id sequence is "trigger"
(when a trigger exists) followed by node_0, node_1, … — and every source
key and every target node in the connection map is the id of a node
present in the graph. -/
theorem c10_ids_unique_connections_closed (plan : WorkflowPlan) :
    ((generateN8NWorkflow plan).nodes.map N8NNode.id).Nodup
    ∧ (generateN8NWorkflow plan).nodes.map N8NNode.id = pathIdsOf plan
    ∧ (∀ e ∈ (generateN8NWorkflow plan).connections,
        e.1 ∈ (generateN8NWorkflow plan).nodes.map N8NNode.id
        ∧ ∀ c ∈ e.2, c.node ∈ (generateN8NWorkflow plan).nodes.map N8NNode.id) := by
  have hnodes := gen_nodes_map_id plan
  have hconn := gen_connections_chain plan
  have hnodup : (pathIdsOf plan).Nodup := by
    unfold pathIdsOf
    cases plan.triggers with
    | nil =>
      simp only [List.nil_append]
      exact List.Nodup.map nodeId_injective (List.nodup_range _)
    | cons t ts =>
      simp only [List.cons_append, List.nil_append]
      rw [List.nodup_cons]
      constructor
      · intro hmem
        obtain ⟨i, _, hid⟩ := List.mem_map.mp hmem
        exact nodeId_ne_trigger i hid
      · exact List.Nodup.map nodeId_injective (List.nodup_range _)
  refine ⟨by rw [hnodes]; exact hnodup, hnodes, ?_⟩
  intro e he
  rw [hconn] at he
  unfold chainOf at he
  obtain ⟨⟨a, b⟩, hp, rfl⟩ := List.mem_map.mp he
  obtain ⟨hp1, hp2⟩ := List.of_mem_zip hp
  rw [hnodes]
  refine ⟨hp1, ?_⟩
  intro c hc
  rw [List.mem_singleton] at hc
  subst hc
  exact List.mem_of_mem_tail hp2

theorem c10_witness :
    ((generateN8NWorkflow egPlanSchedule).nodes.map N8NNode.id).Nodup
    ∧ ("trigger" ∈ (generateN8NWorkflow egPlanSchedule).nodes.map N8NNode.id
      ∧ ∀ c ∈ [mainConn (nodeId 0)],
          c.node ∈ (generateN8NWorkflow egPlanSchedule).nodes.map N8NNode.id) := by
  have h := c10_ids_unique_connections_closed egPlanSchedule
  have hmem : ("trigger", [mainConn (nodeId 0)])
      ∈ (generateN8NWorkflow egPlanSchedule).connections := by
    rw [show (generateN8NWorkflow egPlanSchedule).connections
      = [("trigger", [mainConn (nodeId 0)]), (nodeId 0, [mainConn (nodeId 1)])] from rfl]
    exact List.mem_cons_self _ _
  exact ⟨h.1, h.2.2 ("trigger", [mainConn (nodeId 0)]) hmem⟩

theorem jsonMatch_some_exists (cs : List Char) (sl : List Char)
    (hm : jsonMatch cs = some sl) :
    ∃ i j : Nat, i < j ∧ cs[i]? = some '{' ∧ cs[j]? = some '}' := by
  unfold jsonMatch at hm
  cases hf : findFirstIdx (fun c => c = '{') cs with
  | none => rw [hf] at hm; simp at hm
  | some i =>
    cases hl : findLastIdx (fun c => c = '}') cs with
    | none => rw [hf, hl] at hm; simp at hm
    | some j =>
      rw [hf, hl] at hm
      dsimp only at hm
      by_cases hij : i < j
      · obtain ⟨c1, hc1, hp1⟩ := findFirstIdx_some_spec _ _ _ hf
        obtain ⟨c2, hc2, hp2⟩ := findLastIdx_some_spec _ _ _ hl
        have e1 : c1 = '{' := by simpa using hp1
        have e2 : c2 = '}' := by simpa using hp2
        exact ⟨i, j, hij, e1 ▸ hc1, e2 ▸ hc2⟩
      · rw [if_neg hij] at hm
        cases hm

/-- C2: the analyzer extracts the substring running from the first
opening brace to the last closing brace of the completion text and hands
it to JSON.parse; when the text has no such brace-delimited span — in
particular when it holds no opening brace at all — it raises the
extraction error and produces no plan. -/
theorem c2_json_extraction (parseJson : List Char → Option JVal) (text : String) :
    ((∀ c ∈ text.data, c ≠ '{') →
      analyzeCompletionText parseJson text = Except.error AnalyzerError.planExtraction)
    ∧ ((¬ ∃ i j : Nat, i < j ∧ text.data[i]? = some '{' ∧ text.data[j]? = some '}') →
      analyzeCompletionText parseJson text = Except.error AnalyzerError.planExtraction)
    ∧ (∀ i j : Nat,
        text.data[i]? = some '{' →
        (∀ k, k < i → text.data[k]? ≠ some '{') →
        text.data[j]? = some '}' →
        (∀ k, j < k → text.data[k]? ≠ some '}') →
        i < j →
        jsonMatch text.data = some ((text.data.drop i).take (j - i + 1))
        ∧ analyzeCompletionText parseJson text
          = match parseJson ((text.data.drop i).take (j - i + 1)) with
            | none => Except.error AnalyzerError.planParse
            | some jv => Except.ok (mkAnalysis jv)) := by
  refine ⟨?_, ?_, ?_⟩
  · intro h
    have hf : findFirstIdx (fun c => c = '{') text.data = none := by
      apply findFirstIdx_eq_none
      intro c hc
      simp [h c hc]
    have hj : jsonMatch text.data = none := by
      unfold jsonMatch
      rw [hf]
    unfold analyzeCompletionText
    rw [hj]
  · intro hne
    have hj : jsonMatch text.data = none := by
      cases hm : jsonMatch text.data with
      | none => rfl
      | some sl => exact absurd (jsonMatch_some_exists text.data sl hm) hne
    unfold analyzeCompletionText
    rw [hj]
  · intro i j hi hmin hj hmax hij
    have hf : findFirstIdx (fun c => c = '{') text.data = some i := by
      apply findFirstIdx_complete _ _ i '{' hi (by simp)
      intro k hk c' hget hp
      have hc' : c' = '{' := by simpa using hp
      subst hc'
      exact hmin k hk hget
    have hl : findLastIdx (fun c => c = '}') text.data = some j := by
      apply findLastIdx_complete _ _ j '}' hj (by simp)
      intro k hk c' hget hp
      have hc' : c' = '}' := by simpa using hp
      subst hc'
      exact hmax k hk hget
    have hjm : jsonMatch text.data = some ((text.data.drop i).take (j - i + 1)) := by
      unfold jsonMatch
      rw [hf, hl]
      dsimp only
      rw [if_pos hij]
    refine ⟨hjm, ?_⟩
    unfold analyzeCompletionText
    rw [hjm]

theorem c2_witness :
    jsonMatch ("ab{c}d".data) = some (("ab{c}d".data.drop 2).take 3)
    ∧ analyzeCompletionText (fun _ => none) "ab{c}d"
        = Except.error AnalyzerError.planParse
    ∧ analyzeCompletionText (fun _ => none) "xyz"
        = Except.error AnalyzerError.planExtraction := by
  have hmax : ∀ k, 4 < k → ("ab{c}d".data)[k]? ≠ some '}' := by
    intro k hk
    by_cases hlen : k < 6
    · interval_cases k
      decide
    · rw [List.getElem?_eq_none (by simpa using Nat.le_of_not_lt hlen)]
      simp
  have h3 := (c2_json_extraction (fun _ => none) "ab{c}d").2.2 2 4
    (by decide) (by decide) (by decide) hmax (by decide)
  have h1 := (c2_json_extraction (fun _ => none) "xyz").1 (by decide)
  exact ⟨h3.1, h3.2, h1⟩

/-- C3 counterexample: the analyzer performs no shape validation — fed a
parsed object whose complexity is "medium" (outside the allowed set) it
returns ok, and fed an object missing every required field it returns ok
with all four fields undefined; no PlanShapeError is raised. -/
theorem c3_counterexample :
    jvMedium.getField "complexity" = some (JVal.str "medium")
    ∧ analyzeCompletionText (fun _ => some jvMedium) "{}"
        = Except.ok (mkAnalysis jvMedium)
    ∧ analyzeCompletionText (fun _ => some (JVal.obj [])) "{}"
        = Except.ok { intent := none, requiredServices := none,
                      complexity := none, plan := none }
    ∧ (JVal.obj []).getField "intent" = none := by
  exact ⟨rfl, rfl, rfl, rfl⟩

/-- C3 (amended): whenever extraction finds a candidate substring and
JSON.parse succeeds on it, the analyzer returns the analysis whose four
fields are the verbatim property lookups on the parsed value — absent
fields come back undefined and out-of-range complexity values come back
unchanged; no shape error is ever raised. -/
theorem c3_no_shape_validation (parseJson : List Char → Option JVal) (text : String)
    (cs : List Char) (jv : JVal) (hm : jsonMatch text.data = some cs)
    (hp : parseJson cs = some jv) :
    analyzeCompletionText parseJson text = Except.ok (mkAnalysis jv)
    ∧ (mkAnalysis jv).intent = jv.getField "intent"
    ∧ (mkAnalysis jv).requiredServices = jv.getField "requiredServices"
    ∧ (mkAnalysis jv).complexity = jv.getField "complexity"
    ∧ (mkAnalysis jv).plan = jv.getField "plan" := by
  have hok : analyzeCompletionText parseJson text = Except.ok (mkAnalysis jv) := by
    unfold analyzeCompletionText
    rw [hm]
    dsimp only
    rw [hp]
  exact ⟨hok, rfl, rfl, rfl, rfl⟩

theorem c3_witness :
    analyzeCompletionText (fun _ => some (JVal.obj [])) "{}"
      = Except.ok (mkAnalysis (JVal.obj [])) :=
  (c3_no_shape_validation (fun _ => some (JVal.obj [])) "{}"
    ("{}".data) (JVal.obj []) rfl rfl).1

/-- C9 counterexample: on content whose first block is not a text block
but whose second block is, the analyzer's input is the empty string, not
the text of the first text block as the claim states. -/
theorem c9_counterexample :
    extractAnalysisText [ContentBlock.other "tool_use", ContentBlock.text "hello"]
      = some ""
    ∧ specFirstTextBlock [ContentBlock.other "tool_use", ContentBlock.text "hello"]
      = some "hello"
    ∧ (some "" : Option String) ≠ some "hello" := by
  exact ⟨rfl, rfl, by simp⟩

/-- C9 (amended): the analyzer reads only `content[0]`: when the first
block is a text block its text is the extraction input, and when it is
any other block kind the input is the empty string, even if a later text
block exists. -/
theorem c9_reads_only_first_block (s bt : String) (rest : List ContentBlock) :
    extractAnalysisText (ContentBlock.text s :: rest) = some s
    ∧ extractAnalysisText (ContentBlock.other bt :: rest) = some "" :=
  ⟨rfl, rfl⟩

end JarvisMCP
